import Mathlib

/-!
# Verification of the DefiLlama-to-local-Mongo sync engine

Shallow embedding of `src/app.ts`: the data model (`Protocol`, `ProtocolDetail`,
`JobUpdateHistory`), the storage operations of `MongoStorage`
(`updateProtocol`, `updateChainTvls`, `updateProtocolUpdateHistory`,
`getProtocolUpdateHistory`), and the sweep algorithm of the `update` closure
inside `run`.

Modelling conventions:
* JS numbers carried by the data (TVL values, token amounts) are modelled as
  `Rat`; the code never computes with them beyond copying and the falsy
  test of `|| 0`, which `jsOr` reproduces.
* Timestamps are seconds since the Unix epoch (`Nat`).  The source works in
  milliseconds and formats with `Date.prototype.toUTCString`, which has
  second granularity; `toUTCString` below reproduces that format
  ("Www, DD Mmm YYYY HH:MM:SS GMT") from epoch seconds.
* The source compares those formatted strings with the JS `>` operator,
  which is lexicographic on UTF-16 code units; `jsStrGt` reproduces it
  (code units = code points on the ASCII strings involved).
* JS objects used as maps (`TokenValue`, `chainTvls`) are association lists
  in key order; `Map` lookups built by repeated `set` are folds where a
  later entry overwrites an earlier one (`mapLookup`, `usdLookup`).
* Mongo collections are in-memory lists; `deleteOne` removes the first
  match (`List.eraseP`), `deleteMany`/`insertMany` are `filter`/append.
* The `for` loop of the sweep is `sweepGo`, structurally recursive on the
  number of remaining indices; the entry list's length is invariant during
  the loop (only `List.set` touches it), so the fuel
  `histories.length - i` counts the loop iterations exactly.  When the
  entry list is empty the source computes `cursor % 0 = NaN` and the loop
  body never runs; here `cursor % 0 = cursor` and the fuel is `0`, so the
  loop body never runs either — the observable behavior agrees.
-/

/-- `TVL` sample from the source: one (date, totalLiquidityUSD) point. -/
structure TVL where
  date : Nat
  totalLiquidityUSD : Rat
deriving DecidableEq, Repr

/-- One `{ date, tokens }` sample of the `tokens` / `tokensInUsd` series;
`tokens` is the JS object mapping token symbol to number. -/
structure TokenSample where
  date : Nat
  tokens : List (String × Rat)
deriving DecidableEq, Repr

/-- The per-chain triple of series inside `ProtocolDetail.chainTvls`. -/
structure ChainData where
  tvl : List TVL
  tokensInUsd : List TokenSample
  tokens : List TokenSample
deriving DecidableEq, Repr

/-- `chainTvls`: the JS object mapping chain name to its series triple. -/
abbrev ChainTvls := List (String × ChainData)

/-- `Protocol` summary record; `currentChainTvls` is the denormalized
current snapshot merged in from the detail during a sweep. -/
structure Protocol where
  id : String
  name : String
  slug : String
  currentChainTvls : List (String × Rat)
deriving DecidableEq, Repr

/-- `ProtocolDetail` as fetched from `/protocol/:slug`. -/
structure ProtocolDetail where
  id : String
  name : String
  chainTvls : ChainTvls
  currentChainTvls : List (String × Rat)
deriving DecidableEq, Repr

/-- One element of `JobUpdateHistory.histories`. -/
structure HistoryEntry where
  id : String
  updatedAt : String
deriving DecidableEq, Repr

/-- `JobUpdateHistory`: the checkpoint ledger document stored in the
`metadata` collection (its constant `id` field is omitted). -/
structure JobUpdateHistory where
  histories : List HistoryEntry
  lastUpdatedIndex : Nat
  lastRunAt : String
deriving DecidableEq, Repr

/-- A row of the `protocol_tvls` collection. -/
structure TvlRow where
  slug : String
  chain : String
  date : Nat
  totalLiquidityUSD : Rat
deriving DecidableEq, Repr

/-- A row of the `protocol_tokens` collection. -/
structure TokenRow where
  slug : String
  chain : String
  token : String
  date : Nat
  amount : Rat
  amountInUsd : Rat
deriving DecidableEq, Repr

/-- The Mongo database: the four collections the program touches.
`metadata` holds at most the single `protocol_run_history` document. -/
structure Store where
  protocols : List Protocol
  tvlRows : List TvlRow
  tokenRows : List TokenRow
  metadata : Option JobUpdateHistory
deriving DecidableEq, Repr

/-- `MongoStorage.updateProtocol`: `deleteOne({id})` then `insertOne`.
Defined in the source but never called from the sweep. -/
def updateProtocol (protocol : Protocol) (st : Store) : Store :=
  { st with protocols :=
      (st.protocols.eraseP (fun q => q.id == protocol.id)) ++ [protocol] }

/-- `MongoStorage.updateProtocolUpdateHistory`: delete the singleton
ledger document, insert the new one — a full document replace. -/
def updateProtocolUpdateHistory (history : JobUpdateHistory) (st : Store) : Store :=
  { st with metadata := some history }

/-- `MongoStorage.getProtocolUpdateHistory`: `findOne` with the default
fresh ledger when the document is absent (the source default carries the
number `0` for `lastRunAt`; its string image is used here). -/
def getProtocolUpdateHistory (st : Store) : JobUpdateHistory :=
  st.metadata.getD { histories := [], lastUpdatedIndex := 0, lastRunAt := "0" }

/-- The flattened `protocol_tvls` records built in `updateChainTvls`:
`Object.keys(chainTvls).flatMap(chain => chainTvls[chain].tvl.map(...))`. -/
def tvlRecords (slug : String) (chainTvls : ChainTvls) : List TvlRow :=
  chainTvls.flatMap (fun c =>
    c.2.tvl.map (fun t =>
      { slug := slug, chain := c.1, date := t.date,
        totalLiquidityUSD := t.totalLiquidityUSD }))

/-- One `forEach` step of building the `usdByDateByToken` index of
`updateChainTvls`, restricted to the key (t, d): a sample containing
token `t` at date `d` overwrites the accumulated value. -/
def usdStep (t : String) (d : Nat) (acc : Option Rat) (s : TokenSample) : Option Rat :=
  match s.tokens.lookup t with
  | some v => if s.date = d then some v else acc
  | none => acc

/-- The `usdByDateByToken` index of `updateChainTvls`: for token `t` and
date `d`, the value of the last sample (in series order) whose `tokens`
object contains `t` and whose `date` is `d` — later `Map.set` calls
overwrite earlier ones. -/
def usdLookup (tokensInUsd : List TokenSample) (t : String) (d : Nat) : Option Rat :=
  tokensInUsd.foldl (usdStep t d) none

/-- The JS `x || 0` applied to an optional number: `undefined` and the
falsy number `0` both yield `0`. -/
def jsOr (o : Option Rat) : Rat :=
  match o with
  | some v => if v = 0 then 0 else v
  | none => 0

/-- The flattened `protocol_tokens` records built in `updateChainTvls`. -/
def tokenRecords (slug : String) (chainTvls : ChainTvls) : List TokenRow :=
  chainTvls.flatMap (fun c =>
    c.2.tokens.flatMap (fun s =>
      s.tokens.map (fun kv =>
        { slug := slug, chain := c.1, token := kv.1, date := s.date,
          amount := kv.2,
          amountInUsd := jsOr (usdLookup c.2.tokensInUsd kv.1 s.date) })))

/-- `MongoStorage.updateChainTvls`: for each of the two row kinds, build
the flattened records and, only when at least one record exists,
`deleteMany({slug})` then `insertMany(records)`. -/
def updateChainTvls (slug : String) (chainTvls : ChainTvls) (st : Store) : Store :=
  let records := tvlRecords slug chainTvls
  let st1 :=
    if 0 < records.length then
      { st with tvlRows := st.tvlRows.filter (fun r => r.slug != slug) ++ records }
    else st
  let records2 := tokenRecords slug chainTvls
  if 0 < records2.length then
    { st1 with tokenRows := st1.tokenRows.filter (fun r => r.slug != slug) ++ records2 }
  else st1

/-- The literal sentinel `updatedAt` pushed for newly discovered slugs. -/
def sentinelTimestamp : String := "2000-01-1T00:00:00.000Z"

/-- The reconciliation step of `update` (src/app.ts lines 212-218): only
when the summary count differs from the ledger entry count, append an
entry with the sentinel timestamp for every summary slug not already
present (the `ids` set is computed before any push). -/
def reconcile (summaries : List Protocol) (h : JobUpdateHistory) : JobUpdateHistory :=
  if summaries.length ≠ h.histories.length then
    let ids := h.histories.map (fun e => e.id)
    { h with histories := h.histories ++
        ((summaries.filter (fun p => !(ids.contains p.slug))).map
          (fun p => { id := p.slug, updatedAt := sentinelTimestamp })) }
  else h

/-- Gregorian date from days since 1970-01-01 (the standard
civil-from-days algorithm, restricted to nonnegative days):
returns (year, month, day). -/
def civilFromDays (z : Nat) : Nat × Nat × Nat :=
  let z2 := z + 719468
  let era := z2 / 146097
  let doe := z2 % 146097
  let yoe := (doe - doe / 1460 + doe / 36524 - doe / 146096) / 365
  let y := yoe + era * 400
  let doy := doe - (365 * yoe + yoe / 4 - yoe / 100)
  let mp := (5 * doy + 2) / 153
  let d := doy - (153 * mp + 2) / 5 + 1
  let m := if mp < 10 then mp + 3 else mp - 9
  (if m ≤ 2 then y + 1 else y, m, d)

/-- Weekday abbreviation, 0 = Sunday. -/
def weekdayName : Nat → String
  | 0 => "Sun" | 1 => "Mon" | 2 => "Tue" | 3 => "Wed"
  | 4 => "Thu" | 5 => "Fri" | _ => "Sat"

/-- Month abbreviation, 1 = January. -/
def monthName : Nat → String
  | 1 => "Jan" | 2 => "Feb" | 3 => "Mar" | 4 => "Apr"
  | 5 => "May" | 6 => "Jun" | 7 => "Jul" | 8 => "Aug"
  | 9 => "Sep" | 10 => "Oct" | 11 => "Nov" | _ => "Dec"

/-- Two-digit zero-padded decimal. -/
def pad2 (n : Nat) : String :=
  if n < 10 then "0" ++ toString n else toString n

/-- `Date.prototype.toUTCString` on a timestamp in epoch seconds:
"Www, DD Mmm YYYY HH:MM:SS GMT". -/
def toUTCString (secs : Nat) : String :=
  let days := secs / 86400
  let rem := secs % 86400
  let c := civilFromDays days
  weekdayName ((days + 4) % 7) ++ ", " ++ pad2 c.2.2 ++ " " ++
    monthName c.2.1 ++ " " ++ toString c.1 ++ " " ++
    pad2 (rem / 3600) ++ ":" ++ pad2 (rem % 3600 / 60) ++ ":" ++
    pad2 (rem % 60) ++ " GMT"

/-- JS `<` on strings: lexicographic on code units. -/
def jsLtChars : List Char → List Char → Bool
  | [], [] => false
  | [], _ :: _ => true
  | _ :: _, [] => false
  | a :: as, b :: bs =>
    if a.toNat < b.toNat then true
    else if b.toNat < a.toNat then false
    else jsLtChars as bs

/-- JS `a > b` on strings is `b < a`. -/
def jsStrGt (a b : String) : Bool :=
  jsLtChars b.data a.data

/-- `summaryByMap`: a JS `Map` built by `set(p.slug, p)` over the summary
list in order, so a later summary with the same slug overwrites an
earlier one. -/
def mapLookup (summaries : List Protocol) (slug : String) : Option Protocol :=
  summaries.foldl (fun acc p => if p.slug = slug then some p else acc) none

/-- Everything one call of the `update` closure produces: the final
in-memory ledger, the final store, the success flag (`update`'s boolean
result), and — for specification purposes — the list of loop indices
whose body ran (`examined`), the indices recorded as successes
(`refreshed`, the arguments of the `lastUpdatedIndex = i` assignments),
and the detail-fetch slugs in order (`fetched`). -/
structure SweepResult where
  history : JobUpdateHistory
  store : Store
  ok : Bool
  examined : List Nat
  refreshed : List Nat
  fetched : List String
deriving DecidableEq, Repr

/-- Lines 230-231 of the source (what the spec calls
`recordSuccess(index, now)` on the in-memory ledger): stamp entry `i`
with `toUTCString now`, set the cursor to `i`, set `lastRunAt`. -/
def recordSuccess (now i : Nat) (e : HistoryEntry) (h : JobUpdateHistory) : JobUpdateHistory :=
  { histories := h.histories.set i { e with updatedAt := toUTCString now },
    lastUpdatedIndex := i,
    lastRunAt := toUTCString now }

/-- The `for` loop of `update` (src/app.ts lines 220-233).  `fuel` is the
number of remaining iterations (`histories.length - i` at entry, exact
because the loop preserves the list length); `i` is the loop index.  Per
iteration: skip the entry when `history.updatedAt > updateTime` (JS
string comparison); otherwise fetch the detail (`none` = thrown
`TransportError`, aborting the sweep with `false`), look the summary up
(`none` = the `protocol.currentChainTvls = ...` dereference throws,
aborting the sweep with `false`), write the normalized rows, record the
success on the ledger, and persist the ledger. -/
def sweepGo (getDetail : String → Option ProtocolDetail) (summaries : List Protocol)
    (now : Nat) : Nat → Nat → JobUpdateHistory → Store → SweepResult
  | 0, _, h, st =>
    { history := h, store := st, ok := true,
      examined := [], refreshed := [], fetched := [] }
  | fuel + 1, i, h, st =>
    if hi : i < h.histories.length then
      let e := h.histories[i]
      bif jsStrGt e.updatedAt (toUTCString (now - 86400)) then
        let rest := sweepGo getDetail summaries now fuel (i + 1) h st
        { rest with examined := i :: rest.examined }
      else
        match getDetail e.id with
        | none =>
          { history := h, store := st, ok := false,
            examined := [i], refreshed := [], fetched := [e.id] }
        | some detail =>
          match mapLookup summaries e.id with
          | none =>
            { history := h, store := st, ok := false,
              examined := [i], refreshed := [], fetched := [e.id] }
          | some _protocol =>
            let st1 := updateChainTvls e.id detail.chainTvls st
            let h1 := recordSuccess now i e h
            let st2 := updateProtocolUpdateHistory h1 st1
            let rest := sweepGo getDetail summaries now fuel (i + 1) h1 st2
            { rest with examined := i :: rest.examined,
                        refreshed := i :: rest.refreshed,
                        fetched := e.id :: rest.fetched }
    else
      { history := h, store := st, ok := true,
        examined := [], refreshed := [], fetched := [] }

/-- One call of the `update` closure: load the ledger, reconcile it
against the fetched summaries, and run the sweep loop from
`lastUpdatedIndex % histories.length`. -/
def update (summaries : List Protocol) (getDetail : String → Option ProtocolDetail)
    (now : Nat) (st : Store) : SweepResult :=
  let h0 := getProtocolUpdateHistory st
  let h1 := reconcile summaries h0
  let start := h1.lastUpdatedIndex % h1.histories.length
  sweepGo getDetail summaries now (h1.histories.length - start) start h1 st


/-! ## Concrete instances used in the claim analyses

Timestamps used below (epoch seconds, checked against the JS `Date`
output): 1760184000 = "Sat, 11 Oct 2025 12:00:00 GMT" and
1760356800 = "Mon, 13 Oct 2025 12:00:00 GMT". -/

/-- An empty database. -/
def emptyStore : Store :=
  { protocols := [], tvlRows := [], tokenRows := [], metadata := none }

/-- C1 run: the sweep time "Sat, 11 Oct 2025 12:00:00 GMT". -/
def c1Now : Nat := 1760184000

/-- C1 run: a single summary whose ledger entry is stale (sentinel). -/
def c1Summaries : List Protocol :=
  [{ id := "a", name := "a", slug := "a", currentChainTvls := [] }]

/-- C1 run: the detail fetched for every slug, carrying a nonempty
current snapshot that the sweep merges into the in-memory summary. -/
def c1GetDetail : String → Option ProtocolDetail :=
  fun s => some { id := s, name := s, chainTvls := [], currentChainTvls := [("Ethereum", 5)] }

/-- C1 run: database holding a ledger with one never-updated entry. -/
def c1Store : Store :=
  { emptyStore with metadata := some {
      histories := [{ id := "a", updatedAt := sentinelTimestamp }],
        lastUpdatedIndex := 0, lastRunAt := "0" } }

/-- C2 counterexample: a ledger holding the single identifier "a". -/
def c2Ledger : JobUpdateHistory :=
  { histories := [{ id := "a", updatedAt := "x" }], lastUpdatedIndex := 0, lastRunAt := "0" }

/-- C2 counterexample: a summary list holding the single slug "b" —
same count as the ledger, disjoint identifier set. -/
def c2Summaries : List Protocol :=
  [{ id := "b", name := "b", slug := "b", currentChainTvls := [] }]

/-- C2 witness input: the fresh empty ledger. -/
def c2EmptyLedger : JobUpdateHistory :=
  { histories := [], lastUpdatedIndex := 0, lastRunAt := "0" }

/-- C3 run: the instant both entries were last refreshed
("Sat, 11 Oct 2025 12:00:00 GMT"). -/
def c3T0 : Nat := 1760184000

/-- C3 run: a stable upstream catalog of the two slugs "a" and "b". -/
def c3Summaries : List Protocol :=
  [{ id := "a", name := "a", slug := "a", currentChainTvls := [] },
   { id := "b", name := "b", slug := "b", currentChainTvls := [] }]

/-- C3 run: every detail fetch succeeds (empty series, sweep-relevant
behavior is unchanged by the series content). -/
def c3GetDetail : String → Option ProtocolDetail :=
  fun s => some { id := s, name := s, chainTvls := [], currentChainTvls := [] }

/-- C3 run: the database after a fully successful sweep at time `c3T0`:
both entries stamped `c3T0`, cursor resting on index 1. -/
def c3State0 : Store :=
  { emptyStore with metadata := some {
      histories :=
          [{ id := "a", updatedAt := toUTCString c3T0 },
           { id := "b", updatedAt := toUTCString c3T0 }],
        lastUpdatedIndex := 1, lastRunAt := toUTCString c3T0 } }

/-- C3 run: the database after `k` further sweeps, the `(k+1)`-st sweep
running 25 hours after the `k`-th (90000 s), exactly as the retry loop
of `run` would chain them on the persisted store. -/
def c3State : Nat → Store
  | 0 => c3State0
  | k + 1 => (update c3Summaries c3GetDetail (c3T0 + 90000 * (k + 1)) (c3State k)).store

/-- C4 failing input: "Mon, 13 Oct 2025 12:00:00 GMT". -/
def c4Now : Nat := 1760356800

/-- C4 failing input: the catalog for slug "a". -/
def c4Summaries : List Protocol :=
  [{ id := "a", name := "a", slug := "a", currentChainTvls := [] }]

/-- C4 failing input: detail fetches succeed. -/
def c4GetDetail : String → Option ProtocolDetail :=
  fun s => some { id := s, name := s, chainTvls := [], currentChainTvls := [] }

/-- C4 failing input: the ledger entry for "a" was refreshed one hour
ago ("Mon, 13 Oct 2025 11:00:00 GMT"). -/
def c4Store : Store :=
  { emptyStore with metadata := some {
      histories := [{ id := "a", updatedAt := toUTCString (c4Now - 3600) }],
        lastUpdatedIndex := 0, lastRunAt := "0" } }

/-- C5 scenario: the sweep runs at "Sat, 11 Oct 2025 12:00:00 GMT". -/
def c5Now : Nat := 1760184000

/-- C5 scenario: catalog of the three slugs a, b, c. -/
def c5Summaries : List Protocol :=
  [{ id := "a", name := "a", slug := "a", currentChainTvls := [] },
   { id := "b", name := "b", slug := "b", currentChainTvls := [] },
   { id := "c", name := "c", slug := "c", currentChainTvls := [] }]

/-- C5 scenario: detail fetches succeed. -/
def c5GetDetail : String → Option ProtocolDetail :=
  fun s => some { id := s, name := s, chainTvls := [], currentChainTvls := [] }

/-- C5 scenario: entries [a stale, b fresh (updated two hours ago), c
stale], cursor 0. -/
def c5Store : Store :=
  { emptyStore with metadata := some {
      histories :=
          [{ id := "a", updatedAt := sentinelTimestamp },
           { id := "b", updatedAt := toUTCString (c5Now - 7200) },
           { id := "c", updatedAt := sentinelTimestamp }],
        lastUpdatedIndex := 0, lastRunAt := "0" } }

/-- C6 counterexample: a chain carrying one TVL sample. -/
def c6Cd : ChainData :=
  { tvl := [{ date := 100, totalLiquidityUSD := 1 }], tokensInUsd := [], tokens := [] }

/-- C6 counterexample: first fetch, chains A and B with data. -/
def c6FirstFetch : ChainTvls := [("A", c6Cd), ("B", c6Cd)]

/-- C6 counterexample: second fetch, the strict chain subset {A}, whose
series are empty so that normalization yields zero rows. -/
def c6SecondFetch : ChainTvls := [("A", { tvl := [], tokensInUsd := [], tokens := [] })]

/-- C7 witness: a chain with one valuated token sample at date 10 and an
unvaluated one at date 20. -/
def c7Cd : ChainData :=
  { tvl := [],
    tokensInUsd := [{ date := 10, tokens := [("T", 3)] }],
    tokens := [{ date := 10, tokens := [("T", 2)] }, { date := 20, tokens := [("T", 4)] }] }

/-- C9 witness: a ledger whose single entry is stale (sentinel) while
the summary list is empty, so the per-entry summary lookup fails. -/
def c9Ledger : JobUpdateHistory :=
  { histories := [{ id := "a", updatedAt := sentinelTimestamp }],
    lastUpdatedIndex := 0, lastRunAt := "0" }

/-- C9 witness: the detail the fetch returns before the lookup throws. -/
def c9Detail : ProtocolDetail :=
  { id := "a", name := "a", chainTvls := [], currentChainTvls := [] }

/-- C9 witness: the detail fetch succeeds for every slug. -/
def c9GetDetail : String → Option ProtocolDetail := fun _ => some c9Detail

/-- C10 witness: a database already holding one TVL row and one token
row for slug "x". -/
def c10Store : Store :=
  { emptyStore with
      tvlRows := [{ slug := "x", chain := "A", date := 1, totalLiquidityUSD := 2 }],
      tokenRows := [{ slug := "x", chain := "A", token := "T", date := 1, amount := 2, amountInUsd := 3 }] }

/-- C10 witness: a fetch whose chains have only empty series. -/
def c10EmptyFetch : ChainTvls := [("A", { tvl := [], tokensInUsd := [], tokens := [] })]

/-! ## Frame lemmas for the storage operations -/

theorem updateChainTvls_protocols (slug : String) (ct : ChainTvls) (st : Store) :
    (updateChainTvls slug ct st).protocols = st.protocols := by
  simp only [updateChainTvls]
  split <;> split <;> rfl

theorem updateChainTvls_metadata (slug : String) (ct : ChainTvls) (st : Store) :
    (updateChainTvls slug ct st).metadata = st.metadata := by
  simp only [updateChainTvls]
  split <;> split <;> rfl

/-! ## Invariants of the sweep loop -/

theorem sweepGo_length (gd : String → Option ProtocolDetail) (sm : List Protocol)
    (now : Nat) (fuel : Nat) : ∀ (i : Nat) (h : JobUpdateHistory) (st : Store),
    (sweepGo gd sm now fuel i h st).history.histories.length = h.histories.length := by
  induction fuel with
  | zero => intro i h st; rfl
  | succ n ih =>
    intro i h st
    by_cases hi : i < h.histories.length
    · simp only [sweepGo, dif_pos hi]
      cases hskip : jsStrGt (h.histories[i]).updatedAt (toUTCString (now - 86400)) with
      | true => simpa only [hskip, cond_true] using ih (i + 1) h st
      | false =>
        simp only [hskip, cond_false]
        cases hd : gd (h.histories[i]).id with
        | none => simp only [hd]
        | some detail =>
          simp only [hd]
          cases hm : mapLookup sm (h.histories[i]).id with
          | none => simp only [hm]
          | some p =>
            simp only [hm]
            rw [ih]
            simp [recordSuccess, List.length_set]
    · simp only [sweepGo, dif_neg hi]

theorem sweepGo_getElem_lt (gd : String → Option ProtocolDetail) (sm : List Protocol)
    (now : Nat) (fuel : Nat) : ∀ (i : Nat) (h : JobUpdateHistory) (st : Store) (j : Nat),
    j < i → (sweepGo gd sm now fuel i h st).history.histories[j]? = h.histories[j]? := by
  induction fuel with
  | zero => intro i h st j _; rfl
  | succ n ih =>
    intro i h st j hj
    by_cases hi : i < h.histories.length
    · simp only [sweepGo, dif_pos hi]
      cases hskip : jsStrGt (h.histories[i]).updatedAt (toUTCString (now - 86400)) with
      | true => simpa only [hskip, cond_true] using ih (i + 1) h st j (Nat.lt_succ_of_lt hj)
      | false =>
        simp only [hskip, cond_false]
        cases hd : gd (h.histories[i]).id with
        | none => simp only [hd]
        | some detail =>
          simp only [hd]
          cases hm : mapLookup sm (h.histories[i]).id with
          | none => simp only [hm]
          | some p =>
            simp only [hm]
            rw [ih _ _ _ j (Nat.lt_succ_of_lt hj)]
            simp only [recordSuccess]
            exact List.getElem?_set_ne (Nat.ne_of_gt hj)
    · simp only [sweepGo, dif_neg hi]

theorem sweepGo_refreshed_ge (gd : String → Option ProtocolDetail) (sm : List Protocol)
    (now : Nat) (fuel : Nat) : ∀ (i : Nat) (h : JobUpdateHistory) (st : Store) (j : Nat),
    j ∈ (sweepGo gd sm now fuel i h st).refreshed → i ≤ j := by
  induction fuel with
  | zero => intro i h st j hj; simp [sweepGo] at hj
  | succ n ih =>
    intro i h st j hj
    by_cases hi : i < h.histories.length
    · simp only [sweepGo, dif_pos hi] at hj
      cases hskip : jsStrGt (h.histories[i]).updatedAt (toUTCString (now - 86400)) with
      | true =>
        rw [hskip, cond_true] at hj
        exact Nat.le_of_succ_le (ih (i + 1) h st j hj)
      | false =>
        rw [hskip, cond_false] at hj
        cases hd : gd (h.histories[i]).id with
        | none => rw [hd] at hj; simp at hj
        | some detail =>
          rw [hd] at hj
          cases hm : mapLookup sm (h.histories[i]).id with
          | none => rw [hm] at hj; simp at hj
          | some p =>
            rw [hm] at hj
            simp only [List.mem_cons] at hj
            rcases hj with rfl | hj
            · exact Nat.le_refl j
            · exact Nat.le_of_succ_le (ih (i + 1) _ _ j hj)
    · simp only [sweepGo, dif_neg hi] at hj
      simp at hj

theorem sweepGo_refreshed_lt (gd : String → Option ProtocolDetail) (sm : List Protocol)
    (now : Nat) (fuel : Nat) : ∀ (i : Nat) (h : JobUpdateHistory) (st : Store) (j : Nat),
    j ∈ (sweepGo gd sm now fuel i h st).refreshed → j < h.histories.length := by
  induction fuel with
  | zero => intro i h st j hj; simp [sweepGo] at hj
  | succ n ih =>
    intro i h st j hj
    by_cases hi : i < h.histories.length
    · simp only [sweepGo, dif_pos hi] at hj
      cases hskip : jsStrGt (h.histories[i]).updatedAt (toUTCString (now - 86400)) with
      | true =>
        rw [hskip, cond_true] at hj
        exact ih (i + 1) h st j hj
      | false =>
        rw [hskip, cond_false] at hj
        cases hd : gd (h.histories[i]).id with
        | none => rw [hd] at hj; simp at hj
        | some detail =>
          rw [hd] at hj
          cases hm : mapLookup sm (h.histories[i]).id with
          | none => rw [hm] at hj; simp at hj
          | some p =>
            rw [hm] at hj
            simp only [List.mem_cons] at hj
            rcases hj with rfl | hj
            · exact hi
            · have := ih (i + 1) _ _ j hj
              simpa [recordSuccess, List.length_set] using this
    · simp only [sweepGo, dif_neg hi] at hj
      simp at hj

theorem sweepGo_refreshed_sorted (gd : String → Option ProtocolDetail) (sm : List Protocol)
    (now : Nat) (fuel : Nat) : ∀ (i : Nat) (h : JobUpdateHistory) (st : Store),
    (sweepGo gd sm now fuel i h st).refreshed.Pairwise (· < ·) := by
  induction fuel with
  | zero => intro i h st; simp [sweepGo]
  | succ n ih =>
    intro i h st
    by_cases hi : i < h.histories.length
    · simp only [sweepGo, dif_pos hi]
      cases hskip : jsStrGt (h.histories[i]).updatedAt (toUTCString (now - 86400)) with
      | true => simpa only [cond_true] using ih (i + 1) h st
      | false =>
        simp only [cond_false]
        cases hd : gd (h.histories[i]).id with
        | none => simp only [hd]; simp
        | some detail =>
          simp only [hd]
          cases hm : mapLookup sm (h.histories[i]).id with
          | none => simp only [hm]; simp
          | some p =>
            simp only [hm, List.pairwise_cons]
            refine ⟨fun j hj => ?_, ih (i + 1) _ _⟩
            exact Nat.lt_of_succ_le (sweepGo_refreshed_ge gd sm now n (i + 1) _ _ j hj)
    · simp only [sweepGo, dif_neg hi]
      simp

theorem sweepGo_lastUpdatedIndex (gd : String → Option ProtocolDetail) (sm : List Protocol)
    (now : Nat) (fuel : Nat) : ∀ (i : Nat) (h : JobUpdateHistory) (st : Store),
    (sweepGo gd sm now fuel i h st).history.lastUpdatedIndex
      = (sweepGo gd sm now fuel i h st).refreshed.getLastD h.lastUpdatedIndex := by
  induction fuel with
  | zero => intro i h st; rfl
  | succ n ih =>
    intro i h st
    by_cases hi : i < h.histories.length
    · simp only [sweepGo, dif_pos hi]
      cases hskip : jsStrGt (h.histories[i]).updatedAt (toUTCString (now - 86400)) with
      | true => simpa only [cond_true] using ih (i + 1) h st
      | false =>
        simp only [cond_false]
        cases hd : gd (h.histories[i]).id with
        | none => simp only [hd]; rfl
        | some detail =>
          simp only [hd]
          cases hm : mapLookup sm (h.histories[i]).id with
          | none => simp only [hm]; rfl
          | some p =>
            simp only [hm, List.getLastD_cons]
            simpa only [recordSuccess] using ih (i + 1) _ _
    · simp only [sweepGo, dif_neg hi]; rfl

theorem sweepGo_refreshed_nil (gd : String → Option ProtocolDetail) (sm : List Protocol)
    (now : Nat) (fuel : Nat) : ∀ (i : Nat) (h : JobUpdateHistory) (st : Store),
    (sweepGo gd sm now fuel i h st).refreshed = [] →
    (sweepGo gd sm now fuel i h st).history = h := by
  induction fuel with
  | zero => intro i h st _; rfl
  | succ n ih =>
    intro i h st hnil
    by_cases hi : i < h.histories.length
    · simp only [sweepGo, dif_pos hi] at hnil ⊢
      cases hskip : jsStrGt (h.histories[i]).updatedAt (toUTCString (now - 86400)) with
      | true =>
        simp only [hskip, cond_true] at hnil ⊢
        exact ih (i + 1) h st hnil
      | false =>
        simp only [hskip, cond_false] at hnil ⊢
        cases hd : gd (h.histories[i]).id with
        | none => simp only [hd] at hnil ⊢
        | some detail =>
          simp only [hd] at hnil ⊢
          cases hm : mapLookup sm (h.histories[i]).id with
          | none => simp only [hm] at hnil ⊢
          | some p =>
            simp only [hm] at hnil
            simp at hnil
    · simp only [sweepGo, dif_neg hi]

theorem sweepGo_metadata (gd : String → Option ProtocolDetail) (sm : List Protocol)
    (now : Nat) (fuel : Nat) : ∀ (i : Nat) (h : JobUpdateHistory) (st : Store),
    (sweepGo gd sm now fuel i h st).store.metadata
      = if (sweepGo gd sm now fuel i h st).refreshed = [] then st.metadata
        else some (sweepGo gd sm now fuel i h st).history := by
  induction fuel with
  | zero => intro i h st; rfl
  | succ n ih =>
    intro i h st
    by_cases hi : i < h.histories.length
    · simp only [sweepGo, dif_pos hi]
      cases hskip : jsStrGt (h.histories[i]).updatedAt (toUTCString (now - 86400)) with
      | true => simpa only [cond_true] using ih (i + 1) h st
      | false =>
        simp only [cond_false]
        cases hd : gd (h.histories[i]).id with
        | none => simp only [hd]; rfl
        | some detail =>
          simp only [hd]
          cases hm : mapLookup sm (h.histories[i]).id with
          | none => simp only [hm]; rfl
          | some p =>
            simp only [hm]
            rw [if_neg (by simp)]
            by_cases hr : (sweepGo gd sm now n (i + 1) (recordSuccess now i (h.histories[i]) h)
                (updateProtocolUpdateHistory (recordSuccess now i (h.histories[i]) h)
                  (updateChainTvls (h.histories[i]).id detail.chainTvls st))).refreshed = []
            · have hh := sweepGo_refreshed_nil gd sm now n (i + 1) _ _ hr
              have hm2 := ih (i + 1) (recordSuccess now i (h.histories[i]) h)
                (updateProtocolUpdateHistory (recordSuccess now i (h.histories[i]) h)
                  (updateChainTvls (h.histories[i]).id detail.chainTvls st))
              rw [hr, if_pos rfl] at hm2
              rw [hm2, hh]
              rfl
            · have hm2 := ih (i + 1) (recordSuccess now i (h.histories[i]) h)
                (updateProtocolUpdateHistory (recordSuccess now i (h.histories[i]) h)
                  (updateChainTvls (h.histories[i]).id detail.chainTvls st))
              rw [if_neg hr] at hm2
              exact hm2
    · simp only [sweepGo, dif_neg hi]
      simp

theorem sweepGo_protocols (gd : String → Option ProtocolDetail) (sm : List Protocol)
    (now : Nat) (fuel : Nat) : ∀ (i : Nat) (h : JobUpdateHistory) (st : Store),
    (sweepGo gd sm now fuel i h st).store.protocols = st.protocols := by
  induction fuel with
  | zero => intro i h st; rfl
  | succ n ih =>
    intro i h st
    by_cases hi : i < h.histories.length
    · simp only [sweepGo, dif_pos hi]
      cases hskip : jsStrGt (h.histories[i]).updatedAt (toUTCString (now - 86400)) with
      | true => simpa only [cond_true] using ih (i + 1) h st
      | false =>
        simp only [cond_false]
        cases hd : gd (h.histories[i]).id with
        | none => simp only [hd]
        | some detail =>
          simp only [hd]
          cases hm : mapLookup sm (h.histories[i]).id with
          | none => simp only [hm]
          | some p =>
            simp only [hm]
            rw [ih]
            simp only [updateProtocolUpdateHistory]
            exact updateChainTvls_protocols _ _ _
    · simp only [sweepGo, dif_neg hi]

theorem sweepGo_examined (gd : String → Option ProtocolDetail) (sm : List Protocol)
    (now : Nat) (fuel : Nat) : ∀ (i : Nat) (h : JobUpdateHistory) (st : Store),
    ∃ k, (sweepGo gd sm now fuel i h st).examined = List.range' i k := by
  induction fuel with
  | zero => intro i h st; exact ⟨0, rfl⟩
  | succ n ih =>
    intro i h st
    by_cases hi : i < h.histories.length
    · simp only [sweepGo, dif_pos hi]
      cases hskip : jsStrGt (h.histories[i]).updatedAt (toUTCString (now - 86400)) with
      | true =>
        simp only [cond_true]
        obtain ⟨k, hk⟩ := ih (i + 1) h st
        exact ⟨k + 1, by rw [hk, List.range'_succ]⟩
      | false =>
        simp only [cond_false]
        cases hd : gd (h.histories[i]).id with
        | none => exact ⟨1, by simp only [hd]; rfl⟩
        | some detail =>
          simp only [hd]
          cases hm : mapLookup sm (h.histories[i]).id with
          | none => exact ⟨1, by simp only [hm]; rfl⟩
          | some p =>
            simp only [hm]
            obtain ⟨k, hk⟩ := ih (i + 1) (recordSuccess now i (h.histories[i]) h)
              (updateProtocolUpdateHistory (recordSuccess now i (h.histories[i]) h)
                (updateChainTvls (h.histories[i]).id detail.chainTvls st))
            exact ⟨k + 1, by rw [hk, List.range'_succ]⟩
    · exact ⟨0, by simp only [sweepGo, dif_neg hi]; rfl⟩

/-! ## Lemmas about the normalization of detail records -/

theorem usdStep_of_date_ne (t : String) (d : Nat) (acc : Option Rat)
    (s : TokenSample) (hne : s.date ≠ d) : usdStep t d acc s = acc := by
  simp only [usdStep]
  cases s.tokens.lookup t with
  | none => rfl
  | some v => simp [hne]

theorem usdFold_none (t : String) (d : Nat) (l : List TokenSample) :
    ∀ (acc : Option Rat),
    (∀ u ∈ l, u.date = d → u.tokens.lookup t = none) →
    l.foldl (usdStep t d) acc = acc := by
  induction l with
  | nil => intro acc _; rfl
  | cons u us ih =>
    intro acc hn
    simp only [List.foldl_cons]
    have step : usdStep t d acc u = acc := by
      by_cases hdd : u.date = d
      · have h1 := hn u (List.mem_cons_self u us) hdd
        simp [usdStep, h1]
      · exact usdStep_of_date_ne t d acc u hdd
    rw [step]
    exact ih acc (fun x hx hd2 => hn x (List.mem_cons_of_mem u hx) hd2)

theorem usdLookup_none (t : String) (d : Nat) (l : List TokenSample)
    (hn : ∀ u ∈ l, u.date = d → u.tokens.lookup t = none) :
    usdLookup l t d = none :=
  usdFold_none t d l none hn

theorem usdFold_keep (t : String) (d : Nat) (v : Rat) (l : List TokenSample) :
    (∀ u ∈ l, u.date = d → u.tokens.lookup t = some v) →
    l.foldl (usdStep t d) (some v) = some v := by
  induction l with
  | nil => intro _; rfl
  | cons u us ih =>
    intro hall
    simp only [List.foldl_cons]
    have step : usdStep t d (some v) u = some v := by
      by_cases hdd : u.date = d
      · have h1 := hall u (List.mem_cons_self u us) hdd
        simp [usdStep, h1, hdd]
      · exact usdStep_of_date_ne t d (some v) u hdd
    rw [step]
    exact ih (fun x hx hd2 => hall x (List.mem_cons_of_mem u hx) hd2)

theorem usdLookup_some (t : String) (d : Nat) (v : Rat) (l : List TokenSample)
    (hall : ∀ u ∈ l, u.date = d → u.tokens.lookup t = some v)
    (hex : ∃ u ∈ l, u.date = d) :
    usdLookup l t d = some v := by
  induction l with
  | nil => obtain ⟨u, hu, _⟩ := hex; cases hu
  | cons u us ih =>
    simp only [usdLookup, List.foldl_cons]
    by_cases hdd : u.date = d
    · have h1 := hall u (List.mem_cons_self u us) hdd
      have step : usdStep t d none u = some v := by simp [usdStep, h1, hdd]
      rw [step]
      exact usdFold_keep t d v us (fun x hx hd2 => hall x (List.mem_cons_of_mem u hx) hd2)
    · rw [usdStep_of_date_ne t d none u hdd]
      have hex2 : ∃ x ∈ us, x.date = d := by
        obtain ⟨x, hx, hxd⟩ := hex
        rcases List.mem_cons.mp hx with rfl | hx2
        · exact absurd hxd hdd
        · exact ⟨x, hx2, hxd⟩
      exact ih (fun x hx hd2 => hall x (List.mem_cons_of_mem u hx) hd2) hex2

theorem jsOr_some (v : Rat) : jsOr (some v) = v := by
  by_cases hv : v = 0
  · simp [jsOr, hv]
  · simp [jsOr, hv]

theorem tvlRecords_mem (slug : String) (ct : ChainTvls) :
    ∀ r ∈ tvlRecords slug ct, r.slug = slug ∧ r.chain ∈ ct.map Prod.fst := by
  intro r hr
  simp only [tvlRecords, List.mem_flatMap] at hr
  obtain ⟨c, hc, hr⟩ := hr
  simp only [List.mem_map] at hr
  obtain ⟨t, _, rfl⟩ := hr
  exact ⟨rfl, List.mem_map_of_mem Prod.fst hc⟩

theorem tokenRecords_mem (slug : String) (ct : ChainTvls) :
    ∀ r ∈ tokenRecords slug ct, r.slug = slug ∧ r.chain ∈ ct.map Prod.fst := by
  intro r hr
  simp only [tokenRecords, List.mem_flatMap] at hr
  obtain ⟨c, hc, hr⟩ := hr
  obtain ⟨s, _, hr⟩ := hr
  simp only [List.mem_map] at hr
  obtain ⟨kv, _, rfl⟩ := hr
  exact ⟨rfl, List.mem_map_of_mem Prod.fst hc⟩

theorem updateChainTvls_tvlRows (slug : String) (ct : ChainTvls) (st : Store) :
    (updateChainTvls slug ct st).tvlRows =
      if 0 < (tvlRecords slug ct).length then
        st.tvlRows.filter (fun r => r.slug != slug) ++ tvlRecords slug ct
      else st.tvlRows := by
  by_cases h1 : 0 < (tvlRecords slug ct).length <;>
    by_cases h2 : 0 < (tokenRecords slug ct).length <;>
      simp [updateChainTvls, h1, h2]

theorem updateChainTvls_tokenRows (slug : String) (ct : ChainTvls) (st : Store) :
    (updateChainTvls slug ct st).tokenRows =
      if 0 < (tokenRecords slug ct).length then
        st.tokenRows.filter (fun r => r.slug != slug) ++ tokenRecords slug ct
      else st.tokenRows := by
  by_cases h1 : 0 < (tvlRecords slug ct).length <;>
    by_cases h2 : 0 < (tokenRecords slug ct).length <;>
      simp [updateChainTvls, h1, h2]

/-- Helper: the last element (with default) of a nonempty list is a member. -/
theorem getLastD_mem {α : Type _} : ∀ (l : List α) (d : α), l ≠ [] → l.getLastD d ∈ l := by
  intro l
  induction l with
  | nil => intro d h; cases h rfl
  | cons a as ih =>
    intro d _
    rw [List.getLastD_cons]
    cases has : as with
    | nil => subst has; simp [List.getLastD]
    | cons b bs =>
      subst has
      exact List.mem_cons_of_mem a (ih a (by simp))

/-! ## The starvation run of claim C3 -/

/-- One sweep of the C3 run preserves the starved configuration: the
persisted ledger keeps two entries with the cursor resting on index 1
and entry 0 untouched, and the sweep neither examines nor refreshes
index 0 (it starts at `1 % 2 = 1`). -/
theorem c3_step (st : Store) (hh : JobUpdateHistory) (n : Nat)
    (hmet : st.metadata = some hh) (hlen : hh.histories.length = 2)
    (hcur : hh.lastUpdatedIndex = 1)
    (h0 : hh.histories[0]? = some { id := "a", updatedAt := toUTCString c3T0 }) :
    (∃ hh2, (update c3Summaries c3GetDetail n st).store.metadata = some hh2 ∧
       hh2.histories.length = 2 ∧ hh2.lastUpdatedIndex = 1 ∧
       hh2.histories[0]? = some { id := "a", updatedAt := toUTCString c3T0 }) ∧
    0 ∉ (update c3Summaries c3GetDetail n st).refreshed ∧
    0 ∉ (update c3Summaries c3GetDetail n st).examined := by
  have e0 : getProtocolUpdateHistory st = hh := by
    simp [getProtocolUpdateHistory, hmet]
  have hC : ¬ (c3Summaries.length ≠ hh.histories.length) := by
    rw [hlen]; decide
  have e1 : reconcile c3Summaries hh = hh := by
    simp only [reconcile, if_neg hC]
  have hu : update c3Summaries c3GetDetail n st
      = sweepGo c3GetDetail c3Summaries n 1 1 hh st := by
    simp only [update, e0, e1, hcur, hlen]
  refine ⟨?_, ?_, ?_⟩
  · by_cases hr : (sweepGo c3GetDetail c3Summaries n 1 1 hh st).refreshed = []
    · refine ⟨hh, ?_, hlen, hcur, h0⟩
      rw [hu]
      have hm2 := sweepGo_metadata c3GetDetail c3Summaries n 1 1 hh st
      rw [if_pos hr] at hm2
      rw [hm2, hmet]
    · refine ⟨(sweepGo c3GetDetail c3Summaries n 1 1 hh st).history, ?_, ?_, ?_, ?_⟩
      · rw [hu]
        have hm2 := sweepGo_metadata c3GetDetail c3Summaries n 1 1 hh st
        rw [if_neg hr] at hm2
        exact hm2
      · rw [sweepGo_length c3GetDetail c3Summaries n 1 1 hh st, hlen]
      · have hlu := sweepGo_lastUpdatedIndex c3GetDetail c3Summaries n 1 1 hh st
        rw [hcur] at hlu
        have hmem := getLastD_mem _ 1 hr
        have hge := sweepGo_refreshed_ge c3GetDetail c3Summaries n 1 1 hh st _ hmem
        have hlt := sweepGo_refreshed_lt c3GetDetail c3Summaries n 1 1 hh st _ hmem
        rw [hlen] at hlt
        rw [hlu]
        omega
      · rw [sweepGo_getElem_lt c3GetDetail c3Summaries n 1 1 hh st 0 (by omega), h0]
  · intro hmem
    rw [hu] at hmem
    have := sweepGo_refreshed_ge c3GetDetail c3Summaries n 1 1 hh st 0 hmem
    omega
  · intro hmem
    rw [hu] at hmem
    obtain ⟨k, hk⟩ := sweepGo_examined c3GetDetail c3Summaries n 1 1 hh st
    rw [hk] at hmem
    have := List.mem_range'_1.mp hmem
    omega

/-- The starved configuration holds after every sweep of the C3 run. -/
theorem c3_invariant : ∀ k, ∃ hh, (c3State k).metadata = some hh ∧
    hh.histories.length = 2 ∧ hh.lastUpdatedIndex = 1 ∧
    hh.histories[0]? = some { id := "a", updatedAt := toUTCString c3T0 } := by
  intro k
  induction k with
  | zero =>
    exact ⟨getProtocolUpdateHistory c3State0, rfl, rfl, rfl, rfl⟩
  | succ m ih =>
    obtain ⟨hh, hmet, hlen, hcur, h0⟩ := ih
    exact (c3_step (c3State m) hh (c3T0 + 90000 * (m + 1)) hmet hlen hcur h0).1

/-! ## Claim theorems -/

/-- C1: the claim says that for every sweep and every refreshed entry
the merged summary record is written wholesale (delete-by-identifier
then insert) to the `protocols` collection during that cycle.  The code
never calls `MongoStorage.updateProtocol` from the sweep: the first
conjunct shows that a sweep leaves the `protocols` collection of the
store unchanged on every input, and the remaining conjuncts evaluate a
cycle that does refresh an entry (`recordSuccess` runs for index 0) and
still ends with an empty `protocols` collection. -/
theorem C1_summary_never_written :
    (∀ (summaries : List Protocol) (gd : String → Option ProtocolDetail)
        (now : Nat) (st : Store),
      (update summaries gd now st).store.protocols = st.protocols) ∧
    (update c1Summaries c1GetDetail c1Now c1Store).refreshed = [0] ∧
    (update c1Summaries c1GetDetail c1Now c1Store).store.protocols = [] := by
  refine ⟨?_, by decide, by decide⟩
  intro summaries gd now st
  simp only [update]
  exact sweepGo_protocols gd summaries now _ _ _ _

/-- C2 counterexample: with ledger `[a]` and summary list `[b]` the two
counts are equal, so reconciliation does nothing: the missing identifier
"b" is not appended and the resulting identifier set {a} differs from
the summary identifier set {b}, refuting both the unconditional append
and the set-equality invariant of the claim. -/
theorem C2_reconcile_counterexample :
    reconcile c2Summaries c2Ledger = c2Ledger ∧
    c2Summaries.length = c2Ledger.histories.length ∧
    "b" ∈ c2Summaries.map (fun p => p.slug) ∧
    "b" ∉ (reconcile c2Summaries c2Ledger).histories.map (fun e => e.id) := by
  decide

/-- C2 amended: when the summary count equals the ledger entry count,
reconciliation leaves the ledger unchanged; when the counts differ, it
appends a sentinel entry for each summary slug not already present,
preserving existing entries in their positions and the cursor, and the
resulting identifier set is the union of the old ledger identifiers and
the summary identifiers (old identifiers are never removed). -/
theorem C2_reconcile_amended :
    ∀ (summaries : List Protocol) (h : JobUpdateHistory),
    (summaries.length = h.histories.length → reconcile summaries h = h) ∧
    (summaries.length ≠ h.histories.length →
      ((reconcile summaries h).histories.take h.histories.length = h.histories ∧
       (reconcile summaries h).lastUpdatedIndex = h.lastUpdatedIndex ∧
       (∀ x, x ∈ (reconcile summaries h).histories.map (fun e => e.id) ↔
          (x ∈ h.histories.map (fun e => e.id) ∨
           x ∈ summaries.map (fun p => p.slug))))) := by
  intro summaries h
  constructor
  · intro heq
    have hC : ¬ (summaries.length ≠ h.histories.length) := fun hc => hc heq
    simp only [reconcile, if_neg hC]
  · intro hne
    have hrec : reconcile summaries h = { h with histories := h.histories ++
        ((summaries.filter
            (fun p => !((h.histories.map (fun e => e.id)).contains p.slug))).map
          (fun p => { id := p.slug, updatedAt := sentinelTimestamp })) } := by
      simp only [reconcile, if_pos hne]
    rw [hrec]
    refine ⟨List.take_left _ _, rfl, ?_⟩
    intro x
    simp only [List.map_append, List.mem_append, List.mem_map, List.mem_filter]
    constructor
    · rintro (⟨a, ha, rfl⟩ | ⟨a, ⟨p, ⟨hp, _⟩, rfl⟩, rfl⟩)
      · exact Or.inl ⟨a, ha, rfl⟩
      · exact Or.inr ⟨p, hp, rfl⟩
    · rintro (⟨a, ha, rfl⟩ | ⟨p, hp, rfl⟩)
      · exact Or.inl ⟨a, ha, rfl⟩
      · by_cases hin : p.slug ∈ List.map (fun e => e.id) h.histories
        · obtain ⟨a, ha, hax⟩ := List.mem_map.mp hin
          exact Or.inl ⟨a, ha, hax⟩
        · refine Or.inr
            ⟨{ id := p.slug, updatedAt := sentinelTimestamp }, ⟨p, ⟨hp, ?_⟩, rfl⟩, rfl⟩
          cases hcv : (List.map (fun e => e.id) h.histories).contains p.slug with
          | false => rfl
          | true => exact absurd (List.elem_iff.mp hcv) hin

/-- C2 witness: the amended reconciliation theorem applied at concrete
inputs — equal counts leave the counterexample ledger unchanged, and
against the empty ledger the slug "b" does end up in the identifier
set. -/
theorem C2_reconcile_amended_witness :
    reconcile c2Summaries c2Ledger = c2Ledger ∧
    "b" ∈ (reconcile c2Summaries c2EmptyLedger).histories.map (fun e => e.id) := by
  constructor
  · exact (C2_reconcile_amended c2Summaries c2Ledger).1 (by decide)
  · exact (((C2_reconcile_amended c2Summaries c2EmptyLedger).2 (by decide)).2.2 "b").mpr
      (Or.inr (by decide))

/-- C3: the claim says every ledger entry is re-evaluated in every sweep
and no entry is permanently skipped.  In the deterministic run `c3State`
(two stable identifiers, entry 0 and the cursor resting on index 1,
sweeps 25 hours apart), entry 0 is due at every sweep (its recorded
update time is `c3T0` and each sweep runs at least 24 hours later), yet
no sweep ever examines or refreshes index 0 — the sweep always starts at
`1 % 2 = 1` — and entry 0 still carries its original timestamp after
every number of sweeps.  This refutes the claim on the code. -/
theorem C3_entry_before_cursor_starved :
    ∀ k : Nat,
    c3T0 + 86400 ≤ c3T0 + 90000 * (k + 1) ∧
    0 ∉ (update c3Summaries c3GetDetail (c3T0 + 90000 * (k + 1)) (c3State k)).examined ∧
    0 ∉ (update c3Summaries c3GetDetail (c3T0 + 90000 * (k + 1)) (c3State k)).refreshed ∧
    (getProtocolUpdateHistory (c3State (k + 1))).histories[0]? =
      some { id := "a", updatedAt := toUTCString c3T0 } := by
  intro k
  obtain ⟨hh, hmet, hlen, hcur, h0⟩ := c3_invariant k
  have hstep := c3_step (c3State k) hh (c3T0 + 90000 * (k + 1)) hmet hlen hcur h0
  refine ⟨by omega, hstep.2.2, hstep.2.1, ?_⟩
  obtain ⟨hh2, hmet2, _, _, h02⟩ := hstep.1
  show (getProtocolUpdateHistory
      ((update c3Summaries c3GetDetail (c3T0 + 90000 * (k + 1)) (c3State k)).store)).histories[0]?
    = some { id := "a", updatedAt := toUTCString c3T0 }
  simp only [getProtocolUpdateHistory, hmet2, Option.getD_some]
  exact h02

/-- C4: the claim says an entry is eligible iff its last update is at
most `now - 24h`, and in particular an entry updated after that boundary
is not eligible.  The code compares `toUTCString` strings with the JS
`>` operator, which orders by weekday abbreviation first: at
`c4Now` = Mon, 13 Oct 2025 12:00:00 GMT the entry updated one hour
earlier ("Mon, 13 Oct 2025 11:00:00 GMT") compares below the threshold
string "Sun, 12 Oct 2025 12:00:00 GMT" ("Mon" < "Sun" lexicographically),
so the sweep refreshes it even though its last update is strictly after
`now - 24h` — refuting the claimed equivalence. -/
theorem C4_staleness_string_compare_bug :
    (getProtocolUpdateHistory c4Store).histories[0]? =
      some { id := "a", updatedAt := toUTCString (c4Now - 3600) } ∧
    c4Now - 86400 < c4Now - 3600 ∧
    jsStrGt (toUTCString (c4Now - 3600)) (toUTCString (c4Now - 86400)) = false ∧
    (update c4Summaries c4GetDetail c4Now c4Store).refreshed = [0] := by
  exact ⟨rfl, by decide, by decide, by decide⟩

/-- C5: within a sweep the examined indices form a contiguous,
increasing, non-wrapping range starting at the loop entry index; the
indices passed to `recordSuccess` are strictly increasing; the persisted
cursor ends at the last refreshed index (or stays put when nothing was
refreshed, so skips never advance it); and on the concrete scenario
[a stale, b fresh, c stale] with cursor 0 the sweep refreshes indices
0 and 2, skips 1, and ends with cursor 2. -/
theorem C5_sweep_order_and_cursor :
    (∀ (gd : String → Option ProtocolDetail) (sm : List Protocol) (now fuel i : Nat)
        (h : JobUpdateHistory) (st : Store),
      (sweepGo gd sm now fuel i h st).refreshed.Pairwise (fun a b => a < b)) ∧
    (∀ (gd : String → Option ProtocolDetail) (sm : List Protocol) (now fuel i : Nat)
        (h : JobUpdateHistory) (st : Store),
      ∃ k, (sweepGo gd sm now fuel i h st).examined = List.range' i k) ∧
    (∀ (gd : String → Option ProtocolDetail) (sm : List Protocol) (now fuel i : Nat)
        (h : JobUpdateHistory) (st : Store),
      (sweepGo gd sm now fuel i h st).history.lastUpdatedIndex
        = (sweepGo gd sm now fuel i h st).refreshed.getLastD h.lastUpdatedIndex) ∧
    (update c5Summaries c5GetDetail c5Now c5Store).refreshed = [0, 2] ∧
    (update c5Summaries c5GetDetail c5Now c5Store).examined = [0, 1, 2] ∧
    (update c5Summaries c5GetDetail c5Now c5Store).history.lastUpdatedIndex = 2 := by
  refine ⟨fun gd sm now fuel i h st => sweepGo_refreshed_sorted gd sm now fuel i h st,
    fun gd sm now fuel i h st => sweepGo_examined gd sm now fuel i h st,
    fun gd sm now fuel i h st => sweepGo_lastUpdatedIndex gd sm now fuel i h st,
    by decide, by decide, by decide⟩

/-- C6 counterexample: after writing chains A and B for slug "x", a
second fetch returning the strict chain subset {A} whose series are
empty normalizes to zero rows, so the delete is skipped and the TVL rows
of the absent chain B still exist — refuting the claim as universally
stated. -/
theorem C6_row_replacement_counterexample :
    c6FirstFetch.map Prod.fst = ["A", "B"] ∧
    c6SecondFetch.map Prod.fst = ["A"] ∧
    ((updateChainTvls "x" c6SecondFetch
        (updateChainTvls "x" c6FirstFetch emptyStore)).tvlRows.map
      (fun r => r.chain)) = ["A", "B"] := by
  decide

/-- C6 amended: provided a fetch normalizes to at least one TVL row
(resp. token row), then after the write every TVL row (resp. token row)
stored for that identifier has a chain present in that fetch — rows on
chains absent from the fetch no longer exist, because the write is an
identifier-wide delete followed by a bulk insert of the new rows. -/
theorem C6_row_replacement_amended :
    ∀ (st : Store) (slug : String) (ct : ChainTvls),
    (tvlRecords slug ct ≠ [] →
      ∀ r ∈ (updateChainTvls slug ct st).tvlRows,
        r.slug = slug → r.chain ∈ ct.map Prod.fst) ∧
    (tokenRecords slug ct ≠ [] →
      ∀ r ∈ (updateChainTvls slug ct st).tokenRows,
        r.slug = slug → r.chain ∈ ct.map Prod.fst) := by
  intro st slug ct
  constructor
  · intro hne r hr hslug
    rw [updateChainTvls_tvlRows, if_pos (List.length_pos.mpr hne)] at hr
    rcases List.mem_append.mp hr with hf | hrec
    · have hb := (List.mem_filter.mp hf).2
      rw [hslug] at hb
      simp at hb
    · exact (tvlRecords_mem slug ct r hrec).2
  · intro hne r hr hslug
    rw [updateChainTvls_tokenRows, if_pos (List.length_pos.mpr hne)] at hr
    rcases List.mem_append.mp hr with hf | hrec
    · have hb := (List.mem_filter.mp hf).2
      rw [hslug] at hb
      simp at hb
    · exact (tokenRecords_mem slug ct r hrec).2

/-- C6 witness: the amended theorem applied to the first fetch and the
concrete row it stores for chain A. -/
theorem C6_row_replacement_amended_witness :
    ("A" : String) ∈ c6FirstFetch.map Prod.fst :=
  (C6_row_replacement_amended emptyStore "x" c6FirstFetch).1 (by decide)
    { slug := "x", chain := "A", date := 100, totalLiquidityUSD := 1 }
    (by decide) (by decide)

/-- C7: every (timestamp, token, amount) sample of a chain's holdings
series yields a token row whose reference-currency amount is the result
of the (token, timestamp) join against the valuation series: when no
valuation sample matches, the amount is 0 (a defined fallback, not an
error), and when the matching samples carry the value v, the amount is
v. -/
theorem C7_valuation_join :
    ∀ (slug : String) (ct : ChainTvls) (chain : String) (cd : ChainData)
      (s : TokenSample) (t : String) (amt : Rat),
    (chain, cd) ∈ ct → s ∈ cd.tokens → (t, amt) ∈ s.tokens →
    (({ slug := slug, chain := chain, token := t, date := s.date, amount := amt,
        amountInUsd := jsOr (usdLookup cd.tokensInUsd t s.date) } : TokenRow)
      ∈ tokenRecords slug ct) ∧
    ((∀ u ∈ cd.tokensInUsd, u.date = s.date → u.tokens.lookup t = none) →
      jsOr (usdLookup cd.tokensInUsd t s.date) = 0) ∧
    (∀ v : Rat, (∀ u ∈ cd.tokensInUsd, u.date = s.date → u.tokens.lookup t = some v) →
      (∃ u ∈ cd.tokensInUsd, u.date = s.date) →
      jsOr (usdLookup cd.tokensInUsd t s.date) = v) := by
  intro slug ct chain cd s t amt hc hs ht
  refine ⟨?_, ?_, ?_⟩
  · simp only [tokenRecords, List.mem_flatMap]
    exact ⟨(chain, cd), hc, s, hs, List.mem_map.mpr ⟨(t, amt), ht, rfl⟩⟩
  · intro hn
    rw [usdLookup_none t s.date cd.tokensInUsd hn]
    rfl
  · intro v hall hex
    rw [usdLookup_some t s.date v cd.tokensInUsd hall hex, jsOr_some]

/-- C7 witness: on the concrete chain `c7Cd`, the holdings sample at
date 20 has no matching valuation sample and normalizes to
amount-in-USD 0, while the sample at date 10 picks up the valuation 3. -/
theorem C7_valuation_join_witness :
    (({ slug := "x", chain := "A", token := "T", date := 20, amount := 4,
        amountInUsd := jsOr (usdLookup c7Cd.tokensInUsd "T" 20) } : TokenRow)
      ∈ tokenRecords "x" [("A", c7Cd)]) ∧
    jsOr (usdLookup c7Cd.tokensInUsd "T" 20) = 0 ∧
    jsOr (usdLookup c7Cd.tokensInUsd "T" 10) = 3 := by
  have h1 := C7_valuation_join "x" [("A", c7Cd)] "A" c7Cd
    { date := 20, tokens := [("T", 4)] } "T" 4 (by decide) (by decide) (by decide)
  have h2 := C7_valuation_join "x" [("A", c7Cd)] "A" c7Cd
    { date := 10, tokens := [("T", 2)] } "T" 2 (by decide) (by decide) (by decide)
  exact ⟨h1.1, h1.2.1 (by decide), h2.2.2 3 (by decide) (by decide)⟩

/-- C8: the sweep loop runs over a contiguous index range starting at
the persisted cursor modulo the entry count of the reconciled ledger,
and when that entry count is 0 the sweep performs no iteration at all:
it succeeds, fetches nothing, and leaves the whole store unchanged
(matching the JS behavior where `cursor % 0` is NaN and the loop body
never runs). -/
theorem C8_start_index_and_empty_sweep :
    ∀ (summaries : List Protocol) (gd : String → Option ProtocolDetail)
      (now : Nat) (st : Store),
    (∃ k, (update summaries gd now st).examined =
      List.range' ((reconcile summaries (getProtocolUpdateHistory st)).lastUpdatedIndex %
        (reconcile summaries (getProtocolUpdateHistory st)).histories.length) k) ∧
    ((reconcile summaries (getProtocolUpdateHistory st)).histories.length = 0 →
      (update summaries gd now st).ok = true ∧
      (update summaries gd now st).store = st ∧
      (update summaries gd now st).examined = [] ∧
      (update summaries gd now st).fetched = []) := by
  intro summaries gd now st
  constructor
  · simp only [update]
    exact sweepGo_examined gd summaries now _ _ _ _
  · intro hlen
    simp only [update, hlen, Nat.zero_sub]
    exact ⟨rfl, rfl, rfl, rfl⟩

/-- C8 witness: the empty catalog against the empty database: the sweep
is a no-op success. -/
theorem C8_start_index_and_empty_sweep_witness :
    (update [] (fun _ => none) 0 emptyStore).ok = true ∧
    (update [] (fun _ => none) 0 emptyStore).store = emptyStore ∧
    (update [] (fun _ => none) 0 emptyStore).examined = [] ∧
    (update [] (fun _ => none) 0 emptyStore).fetched = [] :=
  (C8_start_index_and_empty_sweep [] (fun _ => none) 0 emptyStore).2 (by decide)

/-- C9: when the loop reaches an eligible entry whose identifier has a
successful detail fetch but no entry in the summary lookup map, the
sweep aborts with failure at that entry: the detail fetch is performed
(`fetched = [e.id]`), nothing is refreshed, no store write happens, and
the result is `ok = false` — the entry is not skipped and the iteration
does not continue. -/
theorem C9_missing_summary_fails_sweep :
    ∀ (gd : String → Option ProtocolDetail) (sm : List Protocol) (now fuel i : Nat)
      (h : JobUpdateHistory) (st : Store) (e : HistoryEntry) (d : ProtocolDetail),
    h.histories[i]? = some e →
    jsStrGt e.updatedAt (toUTCString (now - 86400)) = false →
    gd e.id = some d →
    mapLookup sm e.id = none →
    sweepGo gd sm now (fuel + 1) i h st =
      { history := h, store := st, ok := false,
        examined := [i], refreshed := [], fetched := [e.id] } := by
  intro gd sm now fuel i h st e d he helig hd hm
  obtain ⟨hi, hei⟩ := List.getElem?_eq_some.mp he
  subst hei
  simp only [sweepGo, dif_pos hi, helig, cond_false, hd, hm]

/-- C9 witness: the stale entry "a" with an empty summary list: the
sweep step fails with the detail already fetched. -/
theorem C9_missing_summary_fails_sweep_witness :
    sweepGo c9GetDetail [] c4Now 1 0 c9Ledger emptyStore =
      { history := c9Ledger, store := emptyStore, ok := false,
        examined := [0], refreshed := [], fetched := ["a"] } :=
  C9_missing_summary_fails_sweep c9GetDetail [] c4Now 0 0 c9Ledger emptyStore
    { id := "a", updatedAt := sentinelTimestamp } c9Detail
    (by decide) (by decide) (by decide) (by decide)

/-- C10: when a fetch normalizes to zero TVL rows (resp. zero token
rows) the delete-by-identifier on that collection is skipped and every
previously stored row for the identifier survives unchanged; when at
least one row is produced, the write is exactly the delete of the
identifier's rows followed by the insertion of the new batch — deletion
happens only together with an insertion. -/
theorem C10_empty_records_skip_delete :
    ∀ (slug : String) (ct : ChainTvls) (st : Store),
    (tvlRecords slug ct = [] → (updateChainTvls slug ct st).tvlRows = st.tvlRows) ∧
    (tokenRecords slug ct = [] → (updateChainTvls slug ct st).tokenRows = st.tokenRows) ∧
    (tvlRecords slug ct ≠ [] → (updateChainTvls slug ct st).tvlRows
        = st.tvlRows.filter (fun r => r.slug != slug) ++ tvlRecords slug ct) ∧
    (tokenRecords slug ct ≠ [] → (updateChainTvls slug ct st).tokenRows
        = st.tokenRows.filter (fun r => r.slug != slug) ++ tokenRecords slug ct) := by
  intro slug ct st
  refine ⟨?_, ?_, ?_, ?_⟩
  · intro hnil
    rw [updateChainTvls_tvlRows, if_neg (by simp [hnil])]
  · intro hnil
    rw [updateChainTvls_tokenRows, if_neg (by simp [hnil])]
  · intro hne
    rw [updateChainTvls_tvlRows, if_pos (List.length_pos.mpr hne)]
  · intro hne
    rw [updateChainTvls_tokenRows, if_pos (List.length_pos.mpr hne)]

/-- C10 witness: a fetch whose series are all empty leaves both row
collections of a populated store untouched. -/
theorem C10_empty_records_skip_delete_witness :
    tvlRecords "x" c10EmptyFetch = [] ∧ tokenRecords "x" c10EmptyFetch = [] ∧
    (updateChainTvls "x" c10EmptyFetch c10Store).tvlRows = c10Store.tvlRows ∧
    (updateChainTvls "x" c10EmptyFetch c10Store).tokenRows = c10Store.tokenRows :=
  ⟨by decide, by decide,
   (C10_empty_records_skip_delete "x" c10EmptyFetch c10Store).1 (by decide),
   (C10_empty_records_skip_delete "x" c10EmptyFetch c10Store).2.1 (by decide)⟩
